import Mathlib

/-!
# Verification of the bitcoindata dashboard computations

Shallow embedding of the computational parts of the `bawolf/bitcoindata`
repository (a Bitcoin "Percent of Previous ATH" dashboard): the frontend
percentile helper, the sentiment classifiers, the `useApiData` fetch hook,
the chart trace construction, and — modelled from the spec where the Python
backend analyzer is not part of the frontend sources — the running-ATH /
PoPATH series and the hardest-day ranking.

JavaScript numbers are modelled by `ℚ` (comparisons and the arithmetic used
here are exact on the inputs the dashboard handles), JavaScript values by an
inductive `JSValue`, and `Array.prototype.findIndex` by an `Option ℕ`
returning recursion (JavaScript's `-1` sentinel becomes `none`).
-/

namespace BitcoinData

/-- JavaScript `Array.prototype.findIndex`: index of the first element
satisfying the predicate, `none` when there is none (JS returns `-1`). -/
def findIndex (p : ℚ → Bool) : List ℚ → Option ℕ
  | [] => none
  | x :: t => if p x then some 0 else (findIndex p t).map (· + 1)

/-- Embedding of `calculatePercentile` from `src/src/utils/helpers.ts`:
`const index = sortedArray.findIndex((item) => item >= value);`
`if (index === -1) return 100;`
`return (index / sortedArray.length) * 100;` -/
def calculatePercentile (value : ℚ) (sortedArray : List ℚ) : ℚ :=
  match findIndex (fun item => value ≤ item) sortedArray with
  | none => 100
  | some index => ((index : ℚ) / (sortedArray.length : ℚ)) * 100

/-- The spec's definition of percentile rank: the fraction of historical
days whose PoPATH value is less than or equal to the given value, on a
0–100 scale. -/
def specPercentileLE (value : ℚ) (arr : List ℚ) : ℚ :=
  ((arr.countP fun x => x ≤ value : ℕ) : ℚ) / (arr.length : ℚ) * 100

theorem findIndex_none {p : ℚ → Bool} :
    ∀ {l : List ℚ}, findIndex p l = none → ∀ x ∈ l, p x = false := by
  intro l
  induction l with
  | nil => intro _ x hx; cases hx
  | cons a t ih =>
    intro h x hx
    cases hpa : p a with
    | true => simp [findIndex, hpa] at h
    | false =>
      simp only [findIndex, hpa, Bool.false_eq_true, if_false] at h
      cases hft : findIndex p t with
      | some j => simp [hft] at h
      | none =>
        rcases List.mem_cons.mp hx with hx | hx
        · simpa [hx] using hpa
        · exact ih hft x hx

theorem findIndex_some_lt_length {p : ℚ → Bool} :
    ∀ {l : List ℚ} {i : ℕ}, findIndex p l = some i → i < l.length := by
  intro l
  induction l with
  | nil => intro i h; simp [findIndex] at h
  | cons a t ih =>
    intro i h
    cases hpa : p a with
    | true =>
      simp [findIndex, hpa] at h
      simp [← h]
    | false =>
      simp only [findIndex, hpa, Bool.false_eq_true, if_false] at h
      cases hft : findIndex p t with
      | none => simp [hft] at h
      | some j =>
        have hji : j + 1 = i := by simpa [hft] using h
        have := ih hft
        simp only [List.length_cons, ← hji]
        omega

/-- On a list sorted ascending, the index of the first element `≥ v` is the
number of elements strictly below `v`. -/
theorem findIndex_sorted_eq_countP {v : ℚ} :
    ∀ {l : List ℚ}, l.Sorted (· ≤ ·) →
      (∃ x ∈ l, v ≤ x) →
      findIndex (fun item => v ≤ item) l = some (l.countP fun x => x < v) := by
  intro l
  induction l with
  | nil => intro _ h; simp at h
  | cons a t ih =>
    intro hs hex
    rcases List.sorted_cons.mp hs with ⟨ha, ht⟩
    by_cases hva : v ≤ a
    · have hcount : ((a :: t).countP fun x => x < v) = 0 := by
        rw [List.countP_eq_zero]
        intro x hx
        rcases List.mem_cons.mp hx with hx | hx
        · simp [hx, not_lt.mpr hva]
        · have : v ≤ x := le_trans hva (ha x hx)
          simp [not_lt.mpr this]
      simp [findIndex, hcount, decide_eq_true_eq, hva]
    · have hav : a < v := lt_of_not_le hva
      have hex' : ∃ x ∈ t, v ≤ x := by
        rcases hex with ⟨x, hx, hvx⟩
        rcases List.mem_cons.mp hx with hx | hx
        · exact absurd hvx (by simpa [hx] using hva)
        · exact ⟨x, hx, hvx⟩
      have := ih ht hex'
      simp only [findIndex, decide_eq_true_eq, hva, if_false, this,
        Option.map_some]
      have : ((a :: t).countP fun x => x < v)
          = (t.countP fun x => x < v) + 1 := by
        simp [List.countP_cons, hav]
      simp [this]

theorem countP_eq_length_of_all_lt {v : ℚ} {l : List ℚ}
    (h : ∀ x ∈ l, x < v) : (l.countP fun x => x < v) = l.length := by
  rw [List.countP_eq_length]
  intro x hx
  simpa using h x hx

theorem findIndex_eq_none_of_all_false {p : ℚ → Bool} :
    ∀ {l : List ℚ}, (∀ x ∈ l, p x = false) → findIndex p l = none := by
  intro l
  induction l with
  | nil => intro _; rfl
  | cons a t ih =>
    intro h
    have hpa : p a = false := h a (List.mem_cons_self a t)
    have ht : findIndex p t = none := ih fun x hx => h x (List.mem_cons_of_mem a hx)
    simp [findIndex, hpa, ht]

/-- The fraction of days whose value is strictly less than the given value,
on a 0–100 scale: what `calculatePercentile` actually computes on a sorted
non-empty array. -/
def specPercentileLT (value : ℚ) (arr : List ℚ) : ℚ :=
  ((arr.countP fun x => x < value : ℕ) : ℚ) / (arr.length : ℚ) * 100

end BitcoinData

namespace BitcoinData

/-- C1 (counterexample): on the ascending-sorted array `[5]` and query
value `5`, `calculatePercentile` returns `0`, while the spec's percentile
rank (fraction of days with value `≤ 5`, on a 0–100 scale) is `100`; the
claim that `calculatePercentile` computes the spec's less-than-or-equal
fraction is therefore false. -/
theorem calculatePercentile_spec_counterexample :
    List.Sorted (· ≤ ·) [(5 : ℚ)] ∧
      calculatePercentile 5 [5] = 0 ∧ specPercentileLE 5 [5] = 100 := by
  refine ⟨by simp, ?_, ?_⟩
  · norm_num [calculatePercentile, findIndex]
  · norm_num [specPercentileLE, List.countP_cons]

/-- C1 (amended): on every non-empty ascending-sorted array,
`calculatePercentile` returns the fraction of historical days whose value is
strictly less than the query value `v` (not less than or equal to it),
reported on a 0–100 scale. -/
theorem calculatePercentile_sorted_eq_strict_fraction
    (v : ℚ) (l : List ℚ) (hs : l.Sorted (· ≤ ·)) (hne : l ≠ []) :
    calculatePercentile v l = specPercentileLT v l := by
  by_cases hex : ∃ x ∈ l, v ≤ x
  · rw [calculatePercentile, findIndex_sorted_eq_countP hs hex, specPercentileLT]
  · push_neg at hex
    have hall : ∀ x ∈ l, x < v := hex
    have hnone : findIndex (fun item => v ≤ item) l = none :=
      findIndex_eq_none_of_all_false fun x hx => by
        simp [not_le.mpr (hall x hx)]
    have hlen : (l.length : ℚ) ≠ 0 :=
      Nat.cast_ne_zero.mpr (List.length_pos.mpr hne).ne'
    rw [calculatePercentile, hnone, specPercentileLT,
      countP_eq_length_of_all_lt hall, div_self hlen, one_mul]

/-- C1 witness: `calculatePercentile 4 [3, 5] = 50`, the strictly-below
fraction of the sorted non-empty array `[3, 5]`. -/
theorem calculatePercentile_sorted_eq_strict_fraction_witness :
    calculatePercentile 4 [3, 5] = specPercentileLT 4 [3, 5] :=
  calculatePercentile_sorted_eq_strict_fraction 4 [3, 5]
    (by norm_num [List.sorted_cons]) (by simp)

/-- C9: for every input array and value `v`, `calculatePercentile` returns a
number in `[0, 100]`; it returns `100` on the empty array and whenever no
element is `≥ v`, and it returns `0` on a non-empty array whose first
element is `≥ v`. -/
theorem calculatePercentile_range (v : ℚ) (l : List ℚ) :
    0 ≤ calculatePercentile v l ∧ calculatePercentile v l ≤ 100 ∧
      (l = [] → calculatePercentile v l = 100) ∧
      ((∀ x ∈ l, ¬ v ≤ x) → calculatePercentile v l = 100) ∧
      (∀ x xs, l = x :: xs → v ≤ x → calculatePercentile v l = 0) := by
  refine ⟨?_, ?_, ?_, ?_, ?_⟩
  · cases hfi : findIndex (fun item => v ≤ item) l with
    | none => simp [calculatePercentile, hfi]
    | some i =>
      simp only [calculatePercentile, hfi]
      positivity
  · cases hfi : findIndex (fun item => v ≤ item) l with
    | none => simp [calculatePercentile, hfi]
    | some i =>
      have hi : i < l.length := findIndex_some_lt_length hfi
      have hlen : (0 : ℚ) < (l.length : ℚ) := by
        exact_mod_cast lt_of_le_of_lt (Nat.zero_le i) hi
      simp only [calculatePercentile, hfi]
      have hratio : ((i : ℚ) / (l.length : ℚ)) ≤ 1 := by
        rw [div_le_one hlen]
        exact_mod_cast le_of_lt hi
      nlinarith [hratio]
  · intro h
    subst h
    simp [calculatePercentile, findIndex]
  · intro h
    have hnone : findIndex (fun item => v ≤ item) l = none :=
      findIndex_eq_none_of_all_false fun x hx => by simp [h x hx]
    simp [calculatePercentile, hnone]
  · intro x xs hl hvx
    subst hl
    have : findIndex (fun item => v ≤ item) (x :: xs) = some 0 := by
      simp [findIndex, hvx]
    simp [calculatePercentile, this]

/-- C9 witness: concrete instances of the range facts, obtained from
`calculatePercentile_range`. -/
theorem calculatePercentile_range_witness :
    calculatePercentile 7 [] = 100 ∧ calculatePercentile 2 [3, 9] = 0 :=
  ⟨(calculatePercentile_range 7 []).2.2.1 rfl,
   (calculatePercentile_range 2 [3, 9]).2.2.2.2 3 [9] rfl (by norm_num)⟩

/-- Modelled from the spec: the Python backend analyzer
(`bitcoin_ath_analyzer.py`, referenced by the README but not among the
frontend sources) performs "a single-pass running-maximum scan": the running
all-time high continues through the rest of the series, updated with each
day's price. `athFrom cur l` is the tail of ATH values after the running
maximum has reached `cur`. -/
def athFrom (cur : ℚ) : List ℚ → List ℚ
  | [] => []
  | x :: t => max cur x :: athFrom (max cur x) t

/-- Modelled from the spec: "for each date, compute the highest price
observed up to and including that date" — the ATH series of a price
series. -/
def athSeries : List ℚ → List ℚ
  | [] => []
  | x :: t => x :: athFrom x t

/-- Modelled from the spec and the formula displayed in `App` (part_002):
PoPATH = Day's High / ATH on Date × 100, computed pointwise over the
series of daily highs. -/
def popathSeries (highs : List ℚ) : List ℚ :=
  List.zipWith (fun h a => h / a * 100) highs (athSeries highs)

theorem length_athFrom (cur : ℚ) :
    ∀ l : List ℚ, (athFrom cur l).length = l.length := by
  intro l
  induction l generalizing cur with
  | nil => rfl
  | cons x t ih => simp [athFrom, ih]

theorem length_athSeries : ∀ l : List ℚ, (athSeries l).length = l.length := by
  intro l
  cases l with
  | nil => rfl
  | cons x t => simp [athSeries, length_athFrom]

theorem length_popathSeries (highs : List ℚ) :
    (popathSeries highs).length = highs.length := by
  simp [popathSeries, length_athSeries]

theorem athFrom_get (cur : ℚ) :
    ∀ (l : List ℚ) (i : ℕ) (hi : i < (athFrom cur l).length),
      (athFrom cur l).get ⟨i, hi⟩ = (l.take (i + 1)).foldl max cur := by
  intro l
  induction l generalizing cur with
  | nil => intro i hi; simp [athFrom] at hi
  | cons x t ih =>
    intro i hi
    cases i with
    | zero => simp [athFrom]
    | succ j =>
      have hj : j < (athFrom (max cur x) t).length := by
        simpa [athFrom] using hi
      simp only [athFrom, List.get_cons_succ, List.take_cons, List.foldl_cons]
      exact ih (max cur x) j hj

theorem athSeries_get (x : ℚ) (t : List ℚ) (i : ℕ)
    (hi : i < (athSeries (x :: t)).length) :
    (athSeries (x :: t)).get ⟨i, hi⟩ = ((x :: t).take (i + 1)).foldl max x := by
  cases i with
  | zero => simp [athSeries]
  | succ j =>
    have hj : j < (athFrom x t).length := by
      simpa [athSeries] using hi
    simp only [athSeries, List.get_cons_succ, List.take_succ_cons,
      List.foldl_cons, max_self]
    exact athFrom_get x t j hj

theorem foldl_max_init_le : ∀ (l : List ℚ) (cur : ℚ), cur ≤ l.foldl max cur := by
  intro l
  induction l with
  | nil => intro cur; exact le_refl _
  | cons x t ih =>
    intro cur
    exact le_trans (le_max_left cur x) (ih (max cur x))

theorem le_foldl_max_of_mem {y : ℚ} :
    ∀ {l : List ℚ} (cur : ℚ), y ∈ l → y ≤ l.foldl max cur := by
  intro l
  induction l with
  | nil => intro _ h; cases h
  | cons x t ih =>
    intro cur h
    rcases List.mem_cons.mp h with h | h
    · subst h
      exact le_trans (le_max_right cur y) (foldl_max_init_le t _)
    · exact ih (max cur x) h

theorem foldl_max_mem :
    ∀ (l : List ℚ) (cur : ℚ), l.foldl max cur = cur ∨ l.foldl max cur ∈ l := by
  intro l
  induction l with
  | nil => intro cur; exact Or.inl rfl
  | cons x t ih =>
    intro cur
    rcases ih (max cur x) with h | h
    · rcases max_choice cur x with hc | hc
      · exact Or.inl (by rw [List.foldl_cons, h, hc])
      · refine Or.inr ?_
        rw [List.foldl_cons, h, hc]
        exact List.mem_cons_self x t
    · refine Or.inr (List.mem_cons_of_mem x ?_)
      rw [List.foldl_cons]
      exact h

theorem foldl_max_mono_init :
    ∀ (l : List ℚ) {a b : ℚ}, a ≤ b → l.foldl max a ≤ l.foldl max b := by
  intro l
  induction l with
  | nil => intro a b h; exact h
  | cons x t ih =>
    intro a b h
    exact ih (max_le_max h (le_refl x))

/-- Helper: the ATH series is a running maximum — upper bound of the
prefix, attained in the prefix, and monotone non-decreasing. -/
theorem athSeries_max_prop (l : List ℚ) (i : ℕ)
    (hi : i < l.length) (hia : i < (athSeries l).length) :
    (∀ j (hj : j < l.length), j ≤ i →
        l.get ⟨j, hj⟩ ≤ (athSeries l).get ⟨i, hia⟩) ∧
    (∃ j, ∃ hj : j < l.length, j ≤ i ∧
        (athSeries l).get ⟨i, hia⟩ = l.get ⟨j, hj⟩) ∧
    (∀ k (hk : k < (athSeries l).length), i ≤ k →
        (athSeries l).get ⟨i, hia⟩ ≤ (athSeries l).get ⟨k, hk⟩) := by
  cases l with
  | nil => simp at hi
  | cons x t =>
    have hAi := athSeries_get x t i hia
    refine ⟨?_, ?_, ?_⟩
    · intro j hj hji
      rw [hAi]
      have hjt : j < i + 1 := by omega
      have hmem : (x :: t).get ⟨j, hj⟩ ∈ (x :: t).take (i + 1) := by
        rw [List.get_take (x :: t) hj hjt]
        exact List.get_mem _ _ _
      exact le_foldl_max_of_mem x hmem
    · rcases foldl_max_mem ((x :: t).take (i + 1)) x with h | h
      · refine ⟨0, by simp, Nat.zero_le i, ?_⟩
        rw [hAi, h]
        rfl
      · rcases List.mem_iff_get.mp h with ⟨⟨j, hjl⟩, hget⟩
        have hjlen : j < (x :: t).length := by
          have := hjl
          rw [List.length_take] at this
          omega
        have hji : j ≤ i := by
          have := hjl
          rw [List.length_take] at this
          omega
        refine ⟨j, hjlen, hji, ?_⟩
        rw [hAi, ← hget, ← List.get_take (x :: t) hjlen (by omega : j < i + 1)]
    · intro k hk hik
      have hAk := athSeries_get x t k hk
      rw [hAi, hAk]
      have htake : ((x :: t).take (k + 1)).take (i + 1) = (x :: t).take (i + 1) := by
        rw [List.take_take]
        congr 1
        omega
      calc ((x :: t).take (i + 1)).foldl max x
          = (((x :: t).take (k + 1)).take (i + 1)).foldl max x := by rw [htake]
        _ ≤ ((x :: t).take (k + 1)).foldl max x := by
            conv_rhs =>
              rw [← List.take_append_drop (i + 1) ((x :: t).take (k + 1))]
            rw [List.foldl_append]
            exact foldl_max_init_le _ _

/-- C4: the ATH series is a running maximum. For every price series and
every index, the ATH value at that index is an upper bound of all prices up
to and including that index, is attained at one of those prices (hence
equals their maximum), and the ATH sequence is monotonically
non-decreasing. -/
theorem athSeries_running_max (l : List ℚ) (i : ℕ)
    (hi : i < l.length) (hia : i < (athSeries l).length) :
    (∀ j (hj : j < l.length), j ≤ i →
        l.get ⟨j, hj⟩ ≤ (athSeries l).get ⟨i, hia⟩) ∧
    (∃ j, ∃ hj : j < l.length, j ≤ i ∧
        (athSeries l).get ⟨i, hia⟩ = l.get ⟨j, hj⟩) ∧
    (∀ k (hk : k < (athSeries l).length), i ≤ k →
        (athSeries l).get ⟨i, hia⟩ ≤ (athSeries l).get ⟨k, hk⟩) :=
  athSeries_max_prop l i hi hia

/-- C4 witness: on the concrete series `[2, 1, 3]` the ATH value at index 1
dominates both earlier prices and the ATH series is non-decreasing from
index 1 to index 2. -/
theorem athSeries_running_max_witness :
    (2 : ℚ) ≤ (athSeries [2, 1, 3]).get ⟨1, by simp [length_athSeries]⟩ ∧
      (athSeries [2, 1, 3]).get ⟨1, by simp [length_athSeries]⟩ ≤
        (athSeries [2, 1, 3]).get ⟨2, by simp [length_athSeries]⟩ := by
  have h := athSeries_running_max [2, 1, 3] 1 (by simp)
    (by simp [length_athSeries])
  constructor
  · exact h.1 0 (by simp) (by omega)
  · exact h.2.2 2 (by simp [length_athSeries]) (by omega)

/-- Helper: the PoPATH series is pointwise high divided by ATH, times
100. -/
theorem popathSeries_get_eq (highs : List ℚ) (i : ℕ)
    (hp : i < (popathSeries highs).length)
    (hh : i < highs.length) (ha : i < (athSeries highs).length) :
    (popathSeries highs).get ⟨i, hp⟩
      = highs.get ⟨i, hh⟩ / (athSeries highs).get ⟨i, ha⟩ * 100 := by
  simp only [popathSeries]
  rw [List.get_zipWith]

/-- C2: for every historical date, the PoPATH value of that date equals the
day's high price divided by the ATH as of that date, multiplied by 100. -/
theorem popathSeries_eq_high_div_ath (highs : List ℚ) (i : ℕ)
    (hp : i < (popathSeries highs).length)
    (hh : i < highs.length) (ha : i < (athSeries highs).length) :
    (popathSeries highs).get ⟨i, hp⟩
      = highs.get ⟨i, hh⟩ / (athSeries highs).get ⟨i, ha⟩ * 100 :=
  popathSeries_get_eq highs i hp hh ha

/-- C2 witness: on the concrete series `[2, 1]`, the PoPATH value at index 1
is the day's high divided by the ATH at that index, times 100. -/
theorem popathSeries_eq_high_div_ath_witness :
    (popathSeries [2, 1]).get ⟨1, by simp [length_popathSeries]⟩
      = ([2, 1] : List ℚ).get ⟨1, by simp⟩ /
          (athSeries [2, 1]).get ⟨1, by simp [length_athSeries]⟩ * 100 :=
  popathSeries_eq_high_div_ath [2, 1] 1 (by simp [length_popathSeries])
    (by simp) (by simp [length_athSeries])

/-- C3: when all prices are positive, every PoPATH value is at most 100,
and no day's high exceeds the ATH shown for it (so the dollar gain over the
ATH, high minus ATH, is never positive). -/
theorem popathSeries_le_100 (highs : List ℚ)
    (hpos : ∀ x ∈ highs, 0 < x) (i : ℕ)
    (hp : i < (popathSeries highs).length)
    (hh : i < highs.length) (ha : i < (athSeries highs).length) :
    (popathSeries highs).get ⟨i, hp⟩ ≤ 100 ∧
      highs.get ⟨i, hh⟩ - (athSeries highs).get ⟨i, ha⟩ ≤ 0 := by
  have hrm := athSeries_max_prop highs i hh ha
  have hub : highs.get ⟨i, hh⟩ ≤ (athSeries highs).get ⟨i, ha⟩ :=
    hrm.1 i hh (le_refl i)
  have hath_pos : 0 < (athSeries highs).get ⟨i, ha⟩ := by
    rcases hrm.2.1 with ⟨j, hj, _, heq⟩
    rw [heq]
    exact hpos _ (List.get_mem _ _ _)
  constructor
  · rw [popathSeries_get_eq highs i hp hh ha]
    have hdiv : highs.get ⟨i, hh⟩ / (athSeries highs).get ⟨i, ha⟩ ≤ 1 :=
      (div_le_one hath_pos).mpr hub
    nlinarith
  · linarith

/-- C3 witness: on the concrete positive series `[2, 1]`, the PoPATH value
at index 1 is at most 100. -/
theorem popathSeries_le_100_witness :
    (popathSeries [2, 1]).get ⟨1, by simp [length_popathSeries]⟩ ≤ 100 :=
  (popathSeries_le_100 [2, 1]
    (by intro x hx; rcases List.mem_cons.mp hx with h | h
        · rw [h]; norm_num
        · simp only [List.mem_singleton] at h; rw [h]; norm_num)
    1 (by simp [length_popathSeries]) (by simp)
    (by simp [length_athSeries])).1

/-- The `intensity` field of `SentimentData` from
`src/src/utils/sentiment.ts`. -/
inductive Intensity where
  | euphoric
  | good
  | okay
  | tough
  | hard
deriving DecidableEq

/-- The `SentimentData` interface from `src/src/utils/sentiment.ts`. -/
structure SentimentData where
  color : String
  bgColor : String
  word : String
  intensity : Intensity
deriving DecidableEq

/-- Embedding of `getSentimentColor` from `src/src/utils/sentiment.ts`. -/
def getSentimentColor (percentOfAth : ℚ) : String :=
  if 90 ≤ percentOfAth then "text-green-600"
  else if 70 ≤ percentOfAth then "text-green-500"
  else if 50 ≤ percentOfAth then "text-yellow-500"
  else if 30 ≤ percentOfAth then "text-orange-500"
  else "text-red-500"

/-- Embedding of `getSentimentBg` from `src/src/utils/sentiment.ts`. -/
def getSentimentBg (percentOfAth : ℚ) : String :=
  if 90 ≤ percentOfAth then "bg-green-50 border-green-200"
  else if 70 ≤ percentOfAth then "bg-green-50 border-green-200"
  else if 50 ≤ percentOfAth then "bg-yellow-50 border-yellow-200"
  else if 30 ≤ percentOfAth then "bg-orange-50 border-orange-200"
  else "bg-red-50 border-red-200"

/-- Embedding of `getSentimentWord` from `src/src/utils/sentiment.ts`. -/
def getSentimentWord (percentOfAth : ℚ) : String :=
  if 90 ≤ percentOfAth then "an easy"
  else if 70 ≤ percentOfAth then "a medium"
  else if 50 ≤ percentOfAth then "a hard"
  else "really hard"

/-- Embedding of `getSentimentData` from `src/src/utils/sentiment.ts`: it
computes the intensity by the same thresholds and delegates the other three
fields to the individual getters. -/
def getSentimentData (percentOfAth : ℚ) : SentimentData :=
  let intensity : Intensity :=
    if 90 ≤ percentOfAth then Intensity.euphoric
    else if 70 ≤ percentOfAth then Intensity.good
    else if 50 ≤ percentOfAth then Intensity.okay
    else if 30 ≤ percentOfAth then Intensity.tough
    else Intensity.hard
  { color := getSentimentColor percentOfAth
    bgColor := getSentimentBg percentOfAth
    word := getSentimentWord percentOfAth
    intensity := intensity }

/-- Hardness rank of an intensity: euphoric < good < okay < tough < hard. -/
def intensityHardness : Intensity → ℕ
  | Intensity.euphoric => 0
  | Intensity.good => 1
  | Intensity.okay => 2
  | Intensity.tough => 3
  | Intensity.hard => 4

/-- Hardness rank of a sentiment color class. -/
def colorHardness (s : String) : ℕ :=
  if s = "text-green-600" then 0
  else if s = "text-green-500" then 1
  else if s = "text-yellow-500" then 2
  else if s = "text-orange-500" then 3
  else 4

/-- Hardness rank of a sentiment background class. -/
def bgHardness (s : String) : ℕ :=
  if s = "bg-green-50 border-green-200" then 0
  else if s = "bg-yellow-50 border-yellow-200" then 2
  else if s = "bg-orange-50 border-orange-200" then 3
  else 4

/-- Hardness rank of a sentiment word. -/
def wordHardness (s : String) : ℕ :=
  if s = "an easy" then 0
  else if s = "a medium" then 1
  else if s = "a hard" then 2
  else 3

/-- The shared threshold level of the sentiment classifiers:
`[90, ∞) ↦ 0`, `[70, 90) ↦ 1`, `[50, 70) ↦ 2`, `[30, 50) ↦ 3`,
`(-∞, 30) ↦ 4`. -/
def sentimentLevel (q : ℚ) : ℕ :=
  if 90 ≤ q then 0
  else if 70 ≤ q then 1
  else if 50 ≤ q then 2
  else if 30 ≤ q then 3
  else 4

def colorTable : ℕ → String
  | 0 => "text-green-600"
  | 1 => "text-green-500"
  | 2 => "text-yellow-500"
  | 3 => "text-orange-500"
  | _ => "text-red-500"

def bgTable : ℕ → String
  | 0 => "bg-green-50 border-green-200"
  | 1 => "bg-green-50 border-green-200"
  | 2 => "bg-yellow-50 border-yellow-200"
  | 3 => "bg-orange-50 border-orange-200"
  | _ => "bg-red-50 border-red-200"

def wordTable : ℕ → String
  | 0 => "an easy"
  | 1 => "a medium"
  | 2 => "a hard"
  | _ => "really hard"

def intensityTable : ℕ → Intensity
  | 0 => Intensity.euphoric
  | 1 => Intensity.good
  | 2 => Intensity.okay
  | 3 => Intensity.tough
  | _ => Intensity.hard

theorem sentimentLevel_antitone {x y : ℚ} (h : x ≤ y) :
    sentimentLevel y ≤ sentimentLevel x := by
  unfold sentimentLevel
  split_ifs <;> first | omega | linarith

theorem getSentimentColor_eq_table (q : ℚ) :
    getSentimentColor q = colorTable (sentimentLevel q) := by
  unfold getSentimentColor sentimentLevel
  split_ifs <;> rfl

theorem getSentimentBg_eq_table (q : ℚ) :
    getSentimentBg q = bgTable (sentimentLevel q) := by
  unfold getSentimentBg sentimentLevel
  split_ifs <;> rfl

theorem getSentimentWord_eq_table (q : ℚ) :
    getSentimentWord q = wordTable (sentimentLevel q) := by
  unfold getSentimentWord sentimentLevel
  split_ifs <;> rfl

theorem getSentimentData_intensity_eq_table (q : ℚ) :
    (getSentimentData q).intensity = intensityTable (sentimentLevel q) := by
  unfold getSentimentData sentimentLevel
  split_ifs <;> rfl

theorem colorHardness_table (n : ℕ) :
    colorHardness (colorTable n) = min n 4 := by
  match n with
  | 0 => rfl
  | 1 => rfl
  | 2 => rfl
  | 3 => rfl
  | m + 4 =>
    have h1 : colorTable (m + 4) = "text-red-500" := rfl
    have h2 : colorHardness "text-red-500" = 4 := rfl
    rw [h1, h2]
    omega

theorem bgHardness_table (n : ℕ) :
    bgHardness (bgTable n) = if n ≤ 1 then 0 else min n 4 := by
  match n with
  | 0 => rfl
  | 1 => rfl
  | 2 => rfl
  | 3 => rfl
  | m + 4 =>
    have h1 : bgTable (m + 4) = "bg-red-50 border-red-200" := rfl
    have h2 : bgHardness "bg-red-50 border-red-200" = 4 := rfl
    rw [h1, h2]
    have : ¬ (m + 4 ≤ 1) := by omega
    rw [if_neg this]
    omega

theorem wordHardness_table (n : ℕ) :
    wordHardness (wordTable n) = min n 3 := by
  match n with
  | 0 => rfl
  | 1 => rfl
  | 2 => rfl
  | m + 3 =>
    have h1 : wordTable (m + 3) = "really hard" := rfl
    have h2 : wordHardness "really hard" = 3 := rfl
    rw [h1, h2]
    omega

theorem intensityHardness_table (n : ℕ) :
    intensityHardness (intensityTable n) = min n 4 := by
  match n with
  | 0 => rfl
  | 1 => rfl
  | 2 => rfl
  | 3 => rfl
  | m + 4 =>
    have h1 : intensityTable (m + 4) = Intensity.hard := rfl
    rw [h1]
    have h2 : intensityHardness Intensity.hard = 4 := rfl
    rw [h2]
    omega

/-- C10: the sentiment classifiers are monotone in hardness — for `x ≤ y`
the intensity, color, background and word assigned to `x` rank at least as
hard as those assigned to `y` — and `getSentimentData` returns exactly the
outputs of `getSentimentColor`, `getSentimentBg` and `getSentimentWord`. -/
theorem sentiment_monotone_hardness (x y : ℚ) (h : x ≤ y) :
    intensityHardness (getSentimentData y).intensity
        ≤ intensityHardness (getSentimentData x).intensity ∧
      colorHardness (getSentimentColor y)
        ≤ colorHardness (getSentimentColor x) ∧
      bgHardness (getSentimentBg y) ≤ bgHardness (getSentimentBg x) ∧
      wordHardness (getSentimentWord y) ≤ wordHardness (getSentimentWord x) ∧
      (∀ q : ℚ, (getSentimentData q).color = getSentimentColor q ∧
        (getSentimentData q).bgColor = getSentimentBg q ∧
        (getSentimentData q).word = getSentimentWord q) := by
  have hlev := sentimentLevel_antitone h
  refine ⟨?_, ?_, ?_, ?_, fun q => ⟨rfl, rfl, rfl⟩⟩
  · rw [getSentimentData_intensity_eq_table, getSentimentData_intensity_eq_table,
      intensityHardness_table, intensityHardness_table]
    omega
  · rw [getSentimentColor_eq_table, getSentimentColor_eq_table,
      colorHardness_table, colorHardness_table]
    omega
  · rw [getSentimentBg_eq_table, getSentimentBg_eq_table,
      bgHardness_table, bgHardness_table]
    split_ifs <;> omega
  · rw [getSentimentWord_eq_table, getSentimentWord_eq_table,
      wordHardness_table, wordHardness_table]
    omega

/-- C10 witness: at `x = 20 ≤ y = 95` the word assigned to `x` is at least
as hard as the word assigned to `y`. -/
theorem sentiment_monotone_hardness_witness :
    wordHardness (getSentimentWord 95) ≤ wordHardness (getSentimentWord 20) :=
  (sentiment_monotone_hardness 20 95 (by norm_num)).2.2.2.1

/-- A JavaScript runtime value, as far as the dashboard's data flow needs:
`undef` is `undefined`, `null` is `null`, numbers are modelled by `ℚ`. -/
inductive JSValue where
  | undef : JSValue
  | null : JSValue
  | bool : Bool → JSValue
  | num : ℚ → JSValue
  | str : String → JSValue
  | arr : List JSValue → JSValue
  | obj : List (String × JSValue) → JSValue

/-- JavaScript member access `o.name`: the field's value when the object has
it, `undefined` otherwise. -/
def getField (o : JSValue) (name : String) : JSValue :=
  match o with
  | JSValue.obj fields =>
    match fields.lookup name with
    | some v => v
    | none => JSValue.undef
  | _ => JSValue.undef

/-- JavaScript truthiness of a value, as used by `||` and `if`. -/
def truthy : JSValue → Bool
  | JSValue.undef => false
  | JSValue.null => false
  | JSValue.bool b => b
  | JSValue.num q => decide (q ≠ 0)
  | JSValue.str s => decide (s ≠ "")
  | JSValue.arr _ => true
  | JSValue.obj _ => true

/-- An object conforming to a declared interface: an object literal whose
keys are exactly the interface's declared field names. -/
def hasFields (o : JSValue) (fields : List String) : Prop :=
  ∃ kvs, o = JSValue.obj kvs ∧ kvs.map Prod.fst = fields

/-- The top-level field names of `DistributionData`
(`src/src/types/index.ts`, lines 46–79). -/
def distributionDataFields : List String :=
  ["histogram", "cumulative", "statistics", "volatility_bands", "percentiles"]

/-- The field names of `CurrentAnalysis` (`src/src/types/index.ts`,
lines 2–7). -/
def currentAnalysisFields : List String :=
  ["current_percent_of_ath", "current_price", "dollar_difference_from_ath",
   "percentile_rank"]

/-- An x/y pair of a Plotly trace, holding raw JavaScript values. -/
structure JSTrace where
  x : JSValue
  y : JSValue

/-- Embedding of the traces built by `CumulativeChart`
(`src/src/components/CumulativeChart.tsx`, lines 33–63): the cumulative
curve reads `data.cumulative_distances` / `data.cumulative_percentages`,
the `Today` vertical line is `createVerticalLine(ca.current_distance_from_ath,
100, …)` (x = `[v, v]`, y = `[0, 100]`), and the marker is
`createMarker(ca.current_distance_from_ath, ca.percentile_rank, …)`
(x = `[v]`, y = `[w]`). -/
def brokenCumulativeTraces (data currentAnalysis : JSValue) : List JSTrace :=
  [ { x := getField data "cumulative_distances"
      y := getField data "cumulative_percentages" },
    { x := JSValue.arr [getField currentAnalysis "current_distance_from_ath",
                        getField currentAnalysis "current_distance_from_ath"]
      y := JSValue.arr [JSValue.num 0, JSValue.num 100] },
    { x := JSValue.arr [getField currentAnalysis "current_distance_from_ath"]
      y := JSValue.arr [getField currentAnalysis "percentile_rank"] } ]

theorem lookup_eq_none_of_not_mem_keys :
    ∀ (kvs : List (String × JSValue)) (name : String),
      name ∉ kvs.map Prod.fst → kvs.lookup name = none := by
  intro kvs name
  induction kvs with
  | nil => intro _; rfl
  | cons p t ih =>
    intro h
    simp only [List.map_cons, List.mem_cons] at h
    push_neg at h
    have hne : (name == p.1) = false := beq_eq_false_iff_ne.mpr h.1
    cases p with
    | mk k v =>
      simp only [List.lookup]
      rw [hne]
      exact ih h.2

theorem getField_eq_undef_of_not_mem {o : JSValue} {fields : List String}
    (hf : hasFields o fields) {name : String} (hn : name ∉ fields) :
    getField o name = JSValue.undef := by
  rcases hf with ⟨kvs, rfl, hkeys⟩
  have : kvs.lookup name = none :=
    lookup_eq_none_of_not_mem_keys kvs name (by rw [hkeys]; exact hn)
  simp [getField, this]

/-- C5: for every API response conforming to the declared
`DistributionData` and `CurrentAnalysis` interfaces, the fields read by
`CumulativeChart.tsx` — `data.cumulative_distances`,
`data.cumulative_percentages` and
`currentAnalysis.current_distance_from_ath` — do not exist, so the
accesses yield `undefined` and the cumulative trace and the `Today`
line/marker are built from undefined coordinates. -/
theorem brokenCumulativeChart_undefined_coords (data ca : JSValue)
    (hd : hasFields data distributionDataFields)
    (hc : hasFields ca currentAnalysisFields) :
    getField data "cumulative_distances" = JSValue.undef ∧
      getField data "cumulative_percentages" = JSValue.undef ∧
      getField ca "current_distance_from_ath" = JSValue.undef ∧
      brokenCumulativeTraces data ca =
        [ { x := JSValue.undef, y := JSValue.undef },
          { x := JSValue.arr [JSValue.undef, JSValue.undef]
            y := JSValue.arr [JSValue.num 0, JSValue.num 100] },
          { x := JSValue.arr [JSValue.undef]
            y := JSValue.arr [getField ca "percentile_rank"] } ] := by
  have h1 : getField data "cumulative_distances" = JSValue.undef :=
    getField_eq_undef_of_not_mem hd (by decide)
  have h2 : getField data "cumulative_percentages" = JSValue.undef :=
    getField_eq_undef_of_not_mem hd (by decide)
  have h3 : getField ca "current_distance_from_ath" = JSValue.undef :=
    getField_eq_undef_of_not_mem hc (by decide)
  exact ⟨h1, h2, h3, by simp [brokenCumulativeTraces, h1, h2, h3]⟩

/-- C5 witness: a concrete `DistributionData`-shaped response and a
concrete `CurrentAnalysis`-shaped response on which the broken field read
yields `undefined`. -/
theorem brokenCumulativeChart_undefined_coords_witness :
    getField (JSValue.obj
        [("histogram", JSValue.null), ("cumulative", JSValue.null),
         ("statistics", JSValue.null), ("volatility_bands", JSValue.null),
         ("percentiles", JSValue.null)]) "cumulative_distances"
      = JSValue.undef :=
  (brokenCumulativeChart_undefined_coords
    (JSValue.obj
      [("histogram", JSValue.null), ("cumulative", JSValue.null),
       ("statistics", JSValue.null), ("volatility_bands", JSValue.null),
       ("percentiles", JSValue.null)])
    (JSValue.obj
      [("current_percent_of_ath", JSValue.num 62),
       ("current_price", JSValue.num 100000),
       ("dollar_difference_from_ath", JSValue.num 5),
       ("percentile_rank", JSValue.num 40)])
    ⟨_, rfl, rfl⟩ ⟨_, rfl, rfl⟩).1

/-- The state held by the `useApiData` hook: `data` (initially `null`),
`loading`, and `error`. -/
structure HookState where
  data : JSValue
  loading : Bool
  error : Option String

/-- How one request round can end: the `fetch` promise rejects, `res.json()`
rejects (unparsable body), or a parsed envelope `{ success, data?, error? }`
arrives. Rejections carry the `Error`'s message. -/
inductive FetchOutcome where
  | fetchRejected : String → FetchOutcome
  | jsonRejected : String → FetchOutcome
  | envelope : Bool → Option JSValue → Option String → FetchOutcome

/-- Embedding of one `refetch` round from `src/src/hooks/useApiData.ts`:
`setLoading(true); setError(null);` then the promise chain
`fetch(url).then(res => res.json()).then(result => { if (result.success)
setData(result.data || null); else throw new Error(result.error || 'API
request failed'); }).catch(err => setError(err.message)).finally(() =>
setLoading(false))`, collapsed to the state after the chain settles. -/
def refetchResult (s : HookState) (o : FetchOutcome) : HookState :=
  match o with
  | FetchOutcome.fetchRejected msg =>
    { s with loading := false, error := some msg }
  | FetchOutcome.jsonRejected msg =>
    { s with loading := false, error := some msg }
  | FetchOutcome.envelope success dataField errField =>
    if success then
      { data :=
          match dataField with
          | some v => if truthy v then v else JSValue.null
          | none => JSValue.null
        loading := false
        error := none }
    else
      { s with
        loading := false
        error := some
          (match errField with
           | some e => if e = "" then "API request failed" else e
           | none => "API request failed") }

/-- C6 (counterexample): on the envelope `{ success: true, data: 0 }` the
hook stores `null`, not the envelope's (present) `data` field `0`, because
`result.data || null` collapses every falsy `data` value to `null`; the
claim that `data` is set to the envelope's `data` field whenever it is
present is therefore false. -/
theorem useApiData_falsy_data_counterexample :
    (refetchResult { data := JSValue.num 42, loading := false, error := none }
        (FetchOutcome.envelope true (some (JSValue.num 0)) none)).data
      = JSValue.null ∧
      JSValue.null ≠ JSValue.num 0 := by
  constructor
  · simp [refetchResult, truthy]
  · intro h
    cases h

/-- C6 (amended): whenever the fetch rejects, the body is unparsable, or
the envelope has `success` false, the request ends with `loading = false`,
a non-null `error`, and `data` unchanged; whenever `success` is true, the
request ends with `loading = false`, `error = null`, and `data` set to the
envelope's `data` field when that field is present and truthy, and to
`null` when it is absent or falsy. -/
theorem useApiData_error_handling (s : HookState) (msg : String)
    (dataField : Option JSValue) (errField : Option String) :
    (refetchResult s (FetchOutcome.fetchRejected msg)
        = { data := s.data, loading := false, error := some msg }) ∧
    (refetchResult s (FetchOutcome.jsonRejected msg)
        = { data := s.data, loading := false, error := some msg }) ∧
    ((refetchResult s (FetchOutcome.envelope false dataField errField)).data
        = s.data ∧
      (refetchResult s (FetchOutcome.envelope false dataField errField)).loading
        = false ∧
      (refetchResult s (FetchOutcome.envelope false dataField errField)).error
        ≠ none) ∧
    ((refetchResult s (FetchOutcome.envelope true dataField errField)).loading
        = false ∧
      (refetchResult s (FetchOutcome.envelope true dataField errField)).error
        = none ∧
      (∀ v, dataField = some v → truthy v = true →
        (refetchResult s (FetchOutcome.envelope true dataField errField)).data
          = v) ∧
      (∀ v, dataField = some v → truthy v = false →
        (refetchResult s (FetchOutcome.envelope true dataField errField)).data
          = JSValue.null) ∧
      (dataField = none →
        (refetchResult s (FetchOutcome.envelope true dataField errField)).data
          = JSValue.null)) := by
  refine ⟨rfl, rfl, ⟨rfl, rfl, ?_⟩, rfl, rfl, ?_, ?_, ?_⟩
  · cases errField with
    | none => simp [refetchResult]
    | some e =>
      by_cases he : e = "" <;> simp [refetchResult, he]
  · intro v hv ht
    subst hv
    simp [refetchResult, ht]
  · intro v hv ht
    subst hv
    simp [refetchResult, ht]
  · intro hv
    subst hv
    simp [refetchResult]

/-- C6 witness: a fetch rejection with message "boom" against a concrete
prior state ends with `loading = false`, `error = "boom"` and the prior
`data` intact, and a successful envelope carrying the truthy value `3`
stores that value. -/
theorem useApiData_error_handling_witness :
    refetchResult { data := JSValue.num 7, loading := true, error := none }
        (FetchOutcome.fetchRejected "boom")
      = { data := JSValue.num 7, loading := false, error := some "boom" } ∧
    (refetchResult { data := JSValue.num 7, loading := true, error := none }
        (FetchOutcome.envelope true (some (JSValue.num 3)) none)).data
      = JSValue.num 3 :=
  ⟨(useApiData_error_handling
      { data := JSValue.num 7, loading := true, error := none }
      "boom" none none).1,
   (useApiData_error_handling
      { data := JSValue.num 7, loading := true, error := none }
      "boom" (some (JSValue.num 3)) none).2.2.2.2.2.1 (JSValue.num 3) rfl
      (by norm_num [truthy])⟩

/-- The `CurrentAnalysis` interface (`src/src/types/index.ts`). -/
structure CurrentAnalysisRec where
  current_percent_of_ath : ℚ
  current_price : ℚ
  dollar_difference_from_ath : ℚ
  percentile_rank : ℚ

/-- The `cumulative` part of `DistributionData`
(`src/src/types/index.ts`). -/
structure CumulativeRec where
  percentages : List ℚ
  cumulative_percentages : List ℚ

/-- A Plotly trace with numeric coordinates. -/
structure TraceQ where
  x : List ℚ
  y : List ℚ
  mode : String
  traceName : String

/-- Embedding of the traces built by the working `CumulativeChart`
(`src/src/components/EasiestDaysTable.tsx`, lines 139–174): the cumulative
curve over `data.cumulative.percentages` / `cumulative_percentages`, and —
when `currentAnalysis` is non-null — the `Today` vertical dashed line at
`current_percent_of_ath` and the `Today` marker at
`(current_percent_of_ath, percentile_rank)`. -/
def cumulativeChartTraces (cumulative : CumulativeRec)
    (currentAnalysis : Option CurrentAnalysisRec) : List TraceQ :=
  { x := cumulative.percentages
    y := cumulative.cumulative_percentages
    mode := "lines"
    traceName := "Cumulative %" } ::
  (match currentAnalysis with
   | some c =>
     [ { x := [c.current_percent_of_ath, c.current_percent_of_ath]
         y := [0, 100]
         mode := "lines"
         traceName := "Today" },
       { x := [c.current_percent_of_ath]
         y := [c.percentile_rank]
         mode := "markers"
         traceName := "Today" } ]
   | none => [])

/-- C8: when a current analysis is available, the chart contains exactly
one marker trace, and it sits at the point
`(current_percent_of_ath, percentile_rank)` — today's percentile rank is
presented as the cumulative-distribution height at today's PoPATH. -/
theorem cumulativeChart_today_marker (cum : CumulativeRec)
    (c : CurrentAnalysisRec) :
    (∃ t ∈ cumulativeChartTraces cum (some c),
        t.mode = "markers" ∧ t.traceName = "Today" ∧
        t.x = [c.current_percent_of_ath] ∧ t.y = [c.percentile_rank]) ∧
    (∀ t ∈ cumulativeChartTraces cum (some c), t.mode = "markers" →
        t.x = [c.current_percent_of_ath] ∧ t.y = [c.percentile_rank]) := by
  constructor
  · refine ⟨TraceQ.mk [c.current_percent_of_ath] [c.percentile_rank]
      "markers" "Today", ?_, rfl, rfl, rfl, rfl⟩
    simp [cumulativeChartTraces]
  · intro t ht hm
    simp only [cumulativeChartTraces, List.mem_cons, List.not_mem_nil,
      or_false] at ht
    rcases ht with rfl | rfl | rfl
    · simp at hm
    · simp at hm
    · exact ⟨rfl, rfl⟩

/-- C8 witness: with `current_percent_of_ath = 62` and
`percentile_rank = 40`, the marker trace of the chart sits at `(62, 40)`. -/
theorem cumulativeChart_today_marker_witness :
    (TraceQ.mk [(62 : ℚ)] [(40 : ℚ)] "markers" "Today").x = [(62 : ℚ)] ∧
      (TraceQ.mk [(62 : ℚ)] [(40 : ℚ)] "markers" "Today").y = [(40 : ℚ)] :=
  (cumulativeChart_today_marker
    { percentages := [10, 62], cumulative_percentages := [5, 40] }
    { current_percent_of_ath := 62, current_price := 100000,
      dollar_difference_from_ath := 5, percentile_rank := 40 }).2
    (TraceQ.mk [(62 : ℚ)] [(40 : ℚ)] "markers" "Today")
    (by simp [cumulativeChartTraces]) rfl

/-- A historical day as the analyzer sees it: date, price, the ATH as of
that day, and the day's PoPATH. -/
structure DayStat where
  date : String
  price : ℚ
  ath_at_time : ℚ
  percent_of_ath : ℚ
deriving DecidableEq

/-- The `HardestDay` interface (`src/src/types/index.ts`, lines 9–15). -/
structure HardestDay where
  date : String
  percent_of_ath : ℚ
  price : ℚ
  ath_at_time : ℚ
  dollar_loss : ℚ
deriving DecidableEq

/-- A day's entry in the hardest-days table, with
`dollar_loss = ath_at_time - price`. -/
def toHardestDay (d : DayStat) : HardestDay :=
  { date := d.date
    percent_of_ath := d.percent_of_ath
    price := d.price
    ath_at_time := d.ath_at_time
    dollar_loss := d.ath_at_time - d.price }

/-- Comparison of days by PoPATH (further from the ATH sorts first). -/
def popLe (a b : DayStat) : Prop :=
  a.percent_of_ath ≤ b.percent_of_ath

instance : DecidableRel popLe := fun a b =>
  inferInstanceAs (Decidable (a.percent_of_ath ≤ b.percent_of_ath))

instance : IsTotal DayStat popLe :=
  ⟨fun a b => le_total a.percent_of_ath b.percent_of_ath⟩

instance : IsTrans DayStat popLe :=
  ⟨fun _ _ _ hab hbc => le_trans hab hbc⟩

/-- Modelled from the spec: the backend analyzer (not under the frontend
sources) aggregates the series into "superlative-day rankings" — the
`hardest_days` list is the `n` days of the whole series with the lowest
PoPATH, rank 1 lowest, each entry carrying
`dollar_loss = ath_at_time - price`. -/
def hardestDays (n : ℕ) (days : List DayStat) : List HardestDay :=
  ((days.insertionSort popLe).take n).map toHardestDay

/-- C7: the hardest-days list is sorted ascending by PoPATH (rank 1 has the
lowest PoPATH), every entry satisfies `dollar_loss = ath_at_time - price`,
and the selected days are, as a sub-multiset of the whole series, the days
with the lowest PoPATH values: every selected day's PoPATH is at most every
unselected day's PoPATH. -/
theorem hardestDays_spec (n : ℕ) (days : List DayStat) :
    List.Sorted
      (fun a b : HardestDay => a.percent_of_ath ≤ b.percent_of_ath)
      (hardestDays n days) ∧
    (∀ h ∈ hardestDays n days, h.dollar_loss = h.ath_at_time - h.price) ∧
    (∃ sel rest : List DayStat, days.Perm (sel ++ rest) ∧
      hardestDays n days = sel.map toHardestDay ∧
      ∀ d ∈ sel, ∀ e ∈ rest, d.percent_of_ath ≤ e.percent_of_ath) := by
  have hsorted : List.Sorted popLe (days.insertionSort popLe) :=
    List.sorted_insertionSort popLe days
  have htake : List.Sorted popLe ((days.insertionSort popLe).take n) :=
    List.Pairwise.sublist (List.take_sublist n _) hsorted
  refine ⟨?_, ?_, ?_⟩
  · rw [hardestDays, List.Sorted, List.pairwise_map]
    exact htake
  · intro h hm
    rcases List.mem_map.mp hm with ⟨d, _, rfl⟩
    rfl
  · refine ⟨(days.insertionSort popLe).take n,
      (days.insertionSort popLe).drop n, ?_, rfl, ?_⟩
    · rw [List.take_append_drop]
      exact (List.perm_insertionSort popLe days).symm
    · have hp : List.Pairwise popLe
          ((days.insertionSort popLe).take n ++
            (days.insertionSort popLe).drop n) := by
        rw [List.take_append_drop]
        exact hsorted
      exact fun d hd e he => (List.pairwise_append.mp hp).2.2 d hd e he

/-- C7 witness: on a concrete two-day series with `n = 1`, the selected
hardest day (the day at 7% of ATH) carries
`dollar_loss = ath_at_time - price`. -/
theorem hardestDays_spec_witness :
    (toHardestDay (DayStat.mk "2011-11-18" 2 32 7)).dollar_loss
      = (toHardestDay (DayStat.mk "2011-11-18" 2 32 7)).ath_at_time
        - (toHardestDay (DayStat.mk "2011-11-18" 2 32 7)).price :=
  (hardestDays_spec 1
      [DayStat.mk "2011-06-08" 30 32 93, DayStat.mk "2011-11-18" 2 32 7]).2.1
    (toHardestDay (DayStat.mk "2011-11-18" 2 32 7))
    (by norm_num [hardestDays, List.insertionSort, List.orderedInsert,
      popLe, toHardestDay])

end BitcoinData
